import Mathlib

/-!
Shallow embedding of `apps/data_explorer/loader.py` (conversation-log dataset
loader): the `AutoZip` archive reader, the `parse` record validator, the
`load_zip` per-archive assembler and the `load_datasets` directory scan,
together with theorems settling the specification claims about them.

Python strings are modelled as `List Char` (`PyStr`), JSON values as the
`Json` type below, Python dicts as insertion-ordered association lists with
unique keys (the shape `json.loads` produces), and Python exceptions as the
`Except PyErr` monad.
-/

/-- Python strings, modelled as lists of characters. -/
abbrev PyStr := List Char

/-- Python string `<=` comparison (lexicographic by code point). -/
def lexLe : PyStr → PyStr → Bool
  | [], _ => true
  | _ :: _, [] => false
  | a :: as, b :: bs => if a < b then true else if b < a then false else lexLe as bs

/-- Python string `<` comparison (strict lexicographic by code point). -/
def lexLt : PyStr → PyStr → Bool
  | [], [] => false
  | [], _ :: _ => true
  | _ :: _, [] => false
  | a :: as, b :: bs => if a < b then true else if b < a then false else lexLt as bs

/-- If `pre` is a prefix of `s`, return the remainder of `s` after `pre`. -/
def stripPrefixChars : PyStr → PyStr → Option PyStr
  | [], s => some s
  | _ :: _, [] => none
  | p :: ps, c :: cs => if p = c then stripPrefixChars ps cs else none

/-- Python substring membership `needle in hay` for strings. -/
def strContainsSub (needle : PyStr) : PyStr → Bool
  | [] => needle.isEmpty
  | c :: rest => (stripPrefixChars needle (c :: rest)).isSome || strContainsSub needle rest

/-- Worker for `pySplit`, with explicit fuel so the recursion is structural.
`acc` holds the characters of the current chunk, reversed. -/
def pySplitGo (sep : PyStr) : Nat → PyStr → PyStr → List PyStr
  | 0, acc, rest => [acc.reverse ++ rest]
  | _ + 1, acc, [] => [acc.reverse]
  | fuel + 1, acc, c :: cs =>
    match stripPrefixChars sep (c :: cs) with
    | some rest => acc.reverse :: pySplitGo sep fuel [] rest
    | none => pySplitGo sep fuel (c :: acc) cs

/-- Python `s.split(sep)` for a non-empty separator `sep`: the chunks of `s`
between the non-overlapping, left-to-right occurrences of `sep`. -/
def pySplit (s sep : PyStr) : List PyStr :=
  pySplitGo sep s.length [] s

/-- Python `s.endswith(suffix)`. -/
def listEndsWith (s suffix : PyStr) : Bool :=
  suffix.isSuffixOf s

/-- Value of a digit string, as `int(...)` computes it (leading zeros allowed). -/
def digitsToNat (ds : PyStr) : Nat :=
  ds.foldl (fun acc c => acc * 10 + (c.toNat - '0'.toNat)) 0

/-- Attempt to match the regex `message_([0-9]+)` at the start of `cs`:
the literal `message_` followed by a maximal non-empty digit run. -/
def msgMatchAt (cs : PyStr) : Option Nat :=
  match stripPrefixChars ('m' :: 'e' :: 's' :: 's' :: 'a' :: 'g' :: 'e' :: '_' :: []) cs with
  | none => none
  | some rest =>
    let ds := rest.takeWhile (fun c => c.isDigit)
    if ds.isEmpty then none else some (digitsToNat ds)

/-- Python `re.search("message_(?P<number>[0-9]+)", key)`: the parsed number of
the leftmost match of the pattern anywhere inside `key`, or `none`. -/
def msgSearch : PyStr → Option Nat
  | [] => none
  | c :: rest =>
    match msgMatchAt (c :: rest) with
    | some n => some n
    | none => msgSearch rest

mutual
/-- A JSON value, as `json.loads` decodes it. Arrays and objects carry their
own list types so that all recursion over `Json` is structural. -/
inductive Json where
  | str (s : PyStr)
  | num (n : Int)
  | bool (b : Bool)
  | null
  | arr (elems : JsonList)
  | obj (fields : JsonObj)

/-- A list of JSON values (a decoded JSON array). -/
inductive JsonList where
  | nil
  | cons (head : Json) (tail : JsonList)

/-- An insertion-ordered JSON object: a sequence of key/value fields. -/
inductive JsonObj where
  | nil
  | cons (key : PyStr) (val : Json) (tail : JsonObj)
end

/-- Build a `JsonList` from a Lean list (notation helper for concrete values). -/
def JsonList.ofList : List Json → JsonList
  | [] => .nil
  | j :: js => .cons j (JsonList.ofList js)

/-- Number of elements of a JSON array. -/
def JsonList.length : JsonList → Nat
  | .nil => 0
  | .cons _ tl => tl.length + 1

/-- Number of fields of a JSON object. -/
def JsonObj.length : JsonObj → Nat
  | .nil => 0
  | .cons _ _ tl => tl.length + 1

mutual
/-- Structural equality of JSON values (Python `==` on decoded JSON data). -/
def Json.beq : Json → Json → Bool
  | .str a, .str b => a = b
  | .num a, .num b => a = b
  | .bool a, .bool b => a = b
  | .null, .null => true
  | .arr as, .arr bs => JsonList.beq as bs
  | .obj as, .obj bs => JsonObj.beq as bs
  | _, _ => false

/-- Structural equality of JSON arrays. -/
def JsonList.beq : JsonList → JsonList → Bool
  | .nil, .nil => true
  | .cons a as, .cons b bs => Json.beq a b && JsonList.beq as bs
  | _, _ => false

/-- Structural equality of JSON objects. -/
def JsonObj.beq : JsonObj → JsonObj → Bool
  | .nil, .nil => true
  | .cons k1 v1 as, .cons k2 v2 bs => (k1 = k2 : Bool) && Json.beq v1 v2 && JsonObj.beq as bs
  | _, _ => false
end

mutual
theorem json_beq_self : ∀ j : Json, Json.beq j j = true
  | .str a => by simp [Json.beq]
  | .num a => by simp [Json.beq]
  | .bool a => by simp [Json.beq]
  | .null => by simp [Json.beq]
  | .arr as => by simp [Json.beq, jsonList_beq_self as]
  | .obj as => by simp [Json.beq, jsonObj_beq_self as]

theorem jsonList_beq_self : ∀ l : JsonList, JsonList.beq l l = true
  | .nil => by simp [JsonList.beq]
  | .cons a as => by simp [JsonList.beq, json_beq_self a, jsonList_beq_self as]

theorem jsonObj_beq_self : ∀ o : JsonObj, JsonObj.beq o o = true
  | .nil => by simp [JsonObj.beq]
  | .cons k v as => by simp [JsonObj.beq, json_beq_self v, jsonObj_beq_self as]
end

mutual
theorem json_eq_of_beq : ∀ {a b : Json}, Json.beq a b = true → a = b
  | .str _, .str _, h => by simpa [Json.beq] using h
  | .num _, .num _, h => by simpa [Json.beq] using h
  | .bool _, .bool _, h => by simpa [Json.beq] using h
  | .null, .null, _ => rfl
  | .arr as, .arr bs, h =>
      congrArg Json.arr (jsonList_eq_of_beq (by simpa [Json.beq] using h))
  | .obj as, .obj bs, h =>
      congrArg Json.obj (jsonObj_eq_of_beq (by simpa [Json.beq] using h))
  | .str _, .num _, h => by simp [Json.beq] at h
  | .str _, .bool _, h => by simp [Json.beq] at h
  | .str _, .null, h => by simp [Json.beq] at h
  | .str _, .arr _, h => by simp [Json.beq] at h
  | .str _, .obj _, h => by simp [Json.beq] at h
  | .num _, .str _, h => by simp [Json.beq] at h
  | .num _, .bool _, h => by simp [Json.beq] at h
  | .num _, .null, h => by simp [Json.beq] at h
  | .num _, .arr _, h => by simp [Json.beq] at h
  | .num _, .obj _, h => by simp [Json.beq] at h
  | .bool _, .str _, h => by simp [Json.beq] at h
  | .bool _, .num _, h => by simp [Json.beq] at h
  | .bool _, .null, h => by simp [Json.beq] at h
  | .bool _, .arr _, h => by simp [Json.beq] at h
  | .bool _, .obj _, h => by simp [Json.beq] at h
  | .null, .str _, h => by simp [Json.beq] at h
  | .null, .num _, h => by simp [Json.beq] at h
  | .null, .bool _, h => by simp [Json.beq] at h
  | .null, .arr _, h => by simp [Json.beq] at h
  | .null, .obj _, h => by simp [Json.beq] at h
  | .arr _, .str _, h => by simp [Json.beq] at h
  | .arr _, .num _, h => by simp [Json.beq] at h
  | .arr _, .bool _, h => by simp [Json.beq] at h
  | .arr _, .null, h => by simp [Json.beq] at h
  | .arr _, .obj _, h => by simp [Json.beq] at h
  | .obj _, .str _, h => by simp [Json.beq] at h
  | .obj _, .num _, h => by simp [Json.beq] at h
  | .obj _, .bool _, h => by simp [Json.beq] at h
  | .obj _, .null, h => by simp [Json.beq] at h
  | .obj _, .arr _, h => by simp [Json.beq] at h

theorem jsonList_eq_of_beq : ∀ {a b : JsonList}, JsonList.beq a b = true → a = b
  | .nil, .nil, _ => rfl
  | .cons x xs, .cons y ys, h => by
      have h' := h
      simp only [JsonList.beq, Bool.and_eq_true] at h'
      rw [json_eq_of_beq h'.1, jsonList_eq_of_beq h'.2]
  | .nil, .cons _ _, h => by simp [JsonList.beq] at h
  | .cons _ _, .nil, h => by simp [JsonList.beq] at h

theorem jsonObj_eq_of_beq : ∀ {a b : JsonObj}, JsonObj.beq a b = true → a = b
  | .nil, .nil, _ => rfl
  | .cons k1 v1 xs, .cons k2 v2 ys, h => by
      have h' := h
      simp only [JsonObj.beq, Bool.and_eq_true, decide_eq_true_eq] at h'
      rw [h'.1.1, json_eq_of_beq h'.1.2, jsonObj_eq_of_beq h'.2]
  | .nil, .cons _ _ _, h => by simp [JsonObj.beq] at h
  | .cons _ _ _, .nil, h => by simp [JsonObj.beq] at h
end

instance : DecidableEq Json := fun a b =>
  if h : Json.beq a b = true then .isTrue (json_eq_of_beq h)
  else .isFalse (fun he => h (he ▸ json_beq_self a))

instance : Inhabited Json := ⟨Json.null⟩

/-- Python exceptions that the loader can raise. -/
inductive PyErr where
  | keyError (key : PyStr)
  | typeError
  | attributeError
  | indexError
deriving DecidableEq

/-- A Python dict, as `json.loads` produces it: an insertion-ordered
association list with unique keys. -/
abbrev PyDict (κ β : Type) := List (κ × β)

/-- Python `d[k]` lookup (as an `Option`). -/
def pyDictGet? {κ β : Type} [DecidableEq κ] : PyDict κ β → κ → Option β
  | [], _ => none
  | (k', v') :: rest, k => if k' = k then some v' else pyDictGet? rest k

/-- Python `k in d` membership test for dicts. -/
def pyDictContains {κ β : Type} [DecidableEq κ] (d : PyDict κ β) (k : κ) : Bool :=
  (pyDictGet? d k).isSome

/-- Python `d[k] = v` assignment: overwrite in place when the key is present
(keeping its position), append a new field otherwise. -/
def pyDictSet {κ β : Type} [DecidableEq κ] : PyDict κ β → κ → β → PyDict κ β
  | [], k, v => [(k, v)]
  | (k', v') :: rest, k, v =>
    if k' = k then (k, v) :: rest else (k', v') :: pyDictSet rest k v

/-- A raw record: the decoded JSON object of one archive entry
(`ChatHistory = Dict[str, Any]` in the source). -/
abbrev RawChat := PyDict PyStr Json

/-- Python `raw_chat[key]`: the value, or a `KeyError` for a missing key. -/
def dictGetItem (raw : RawChat) (k : PyStr) : Except PyErr Json :=
  match pyDictGet? raw k with
  | some v => .ok v
  | none => .error (.keyError k)

/-- Membership of a JSON value in a JSON array, element by element. -/
def JsonList.hasElem : JsonList → Json → Bool
  | .nil, _ => false
  | .cons x xs, j => Json.beq x j || JsonList.hasElem xs j

/-- Key membership in a JSON object. -/
def JsonObj.hasKey : JsonObj → PyStr → Bool
  | .nil, _ => false
  | .cons k _ tl, key => (k = key : Bool) || JsonObj.hasKey tl key

/-- Python `needle in v` for a string `needle` and an arbitrary value `v`:
substring test on strings, element test on arrays, key test on objects,
`TypeError` on numbers, booleans and `None`. -/
def pyInOp (needle : PyStr) : Json → Except PyErr Bool
  | .str s => .ok (strContainsSub needle s)
  | .arr xs => .ok (xs.hasElem (.str needle))
  | .obj fields => .ok (fields.hasKey needle)
  | .num _ => .error .typeError
  | .bool _ => .error .typeError
  | .null => .error .typeError

/-- Python `v.split(sep)`: defined on strings, `AttributeError` otherwise. -/
def pySplitJson (v : Json) (sep : PyStr) : Except PyErr (List PyStr) :=
  match v with
  | .str s => .ok (pySplit s sep)
  | _ => .error .attributeError

/-- Python `len(v)`: defined on strings, arrays and objects,
`TypeError` otherwise. -/
def pyLen : Json → Except PyErr Nat
  | .str s => .ok s.length
  | .arr xs => .ok xs.length
  | .obj fields => .ok fields.length
  | .num _ => .error .typeError
  | .bool _ => .error .typeError
  | .null => .error .typeError

/-- Python `l[i]` for a list and a non-negative index. -/
def pyIndex {α : Type} (l : List α) (i : Nat) : Except PyErr α :=
  match l[i]? with
  | some x => .ok x
  | none => .error .indexError

/-- The `messages` loop of `parse` (source lines 90-95): scan the raw record's
fields in order; every field whose name contains a `message_<integer>` match
contributes its value under the parsed integer, later fields overwriting
earlier ones with the same parsed integer. -/
def collectMessages (raw : RawChat) : PyDict Nat Json :=
  raw.foldl
    (fun messages kv =>
      match msgSearch kv.1 with
      | some number => pyDictSet messages number kv.2
      | none => messages)
    []

/-- A normalized record, as the final `dict(...)` of `parse` builds it. -/
structure ParsedChat where
  assistant_role : PyStr
  user_role : PyStr
  original_task : Json
  specified_task : Json
  messages : PyDict Nat Json

/-- The `parse` validator (source lines 47-103), line by line: `.ok none`
models `return None`, `.error e` models an uncaught exception. -/
def parse (raw_chat : RawChat) : Except PyErr (Option ParsedChat) :=
  if ¬ pyDictContains raw_chat "role_1".data then .ok none else
  match dictGetItem raw_chat "role_1".data with
  | .error e => .error e
  | .ok role_1 =>
    match pyInOp "_RoleType.ASSISTANT".data role_1 with
    | .error e => .error e
    | .ok false => .ok none
    | .ok true =>
      match pySplitJson role_1 "_RoleType.ASSISTANT".data with
      | .error e => .error e
      | .ok assistant_role_chunks =>
        if assistant_role_chunks.length < 1 then .ok none else
        match pyIndex assistant_role_chunks 0 with
        | .error e => .error e
        | .ok assistant_role =>
          if assistant_role.length ≤ 0 then .ok none else
          match dictGetItem raw_chat "role_2".data with
          | .error e => .error e
          | .ok role_2 =>
            match pyInOp "_RoleType.USER".data role_2 with
            | .error e => .error e
            | .ok false => .ok none
            | .ok true =>
              match pySplitJson role_2 "_RoleType.USER".data with
              | .error e => .error e
              | .ok user_role_chunks =>
                if user_role_chunks.length < 1 then .ok none else
                match pyIndex user_role_chunks 0 with
                | .error e => .error e
                | .ok user_role =>
                  if user_role.length ≤ 0 then .ok none else
                  match dictGetItem raw_chat "original_task".data with
                  | .error e => .error e
                  | .ok original_task =>
                    match pyLen original_task with
                    | .error e => .error e
                    | .ok otLen =>
                      if otLen ≤ 0 then .ok none else
                      match dictGetItem raw_chat "specified_task".data with
                      | .error e => .error e
                      | .ok specified_task =>
                        match pyLen specified_task with
                        | .error e => .error e
                        | .ok stLen =>
                          if stLen ≤ 0 then .ok none else
                          .ok (some
                            { assistant_role := assistant_role
                              user_role := user_role
                              original_task := original_task
                              specified_task := specified_task
                              messages := collectMessages raw_chat })

/-- Variant of `parse` with the two unreachable `len(...) < 1` rejection
branches (source lines 66-67 and 76-77) removed; otherwise identical text.
Used to state that those branches never fire. -/
def parseNoLenChecks (raw_chat : RawChat) : Except PyErr (Option ParsedChat) :=
  if ¬ pyDictContains raw_chat "role_1".data then .ok none else
  match dictGetItem raw_chat "role_1".data with
  | .error e => .error e
  | .ok role_1 =>
    match pyInOp "_RoleType.ASSISTANT".data role_1 with
    | .error e => .error e
    | .ok false => .ok none
    | .ok true =>
      match pySplitJson role_1 "_RoleType.ASSISTANT".data with
      | .error e => .error e
      | .ok assistant_role_chunks =>
        match pyIndex assistant_role_chunks 0 with
        | .error e => .error e
        | .ok assistant_role =>
          if assistant_role.length ≤ 0 then .ok none else
          match dictGetItem raw_chat "role_2".data with
          | .error e => .error e
          | .ok role_2 =>
            match pyInOp "_RoleType.USER".data role_2 with
            | .error e => .error e
            | .ok false => .ok none
            | .ok true =>
              match pySplitJson role_2 "_RoleType.USER".data with
              | .error e => .error e
              | .ok user_role_chunks =>
                match pyIndex user_role_chunks 0 with
                | .error e => .error e
                | .ok user_role =>
                  if user_role.length ≤ 0 then .ok none else
                  match dictGetItem raw_chat "original_task".data with
                  | .error e => .error e
                  | .ok original_task =>
                    match pyLen original_task with
                    | .error e => .error e
                    | .ok otLen =>
                      if otLen ≤ 0 then .ok none else
                      match dictGetItem raw_chat "specified_task".data with
                      | .error e => .error e
                      | .ok specified_task =>
                        match pyLen specified_task with
                        | .error e => .error e
                        | .ok stLen =>
                          if stLen ≤ 0 then .ok none else
                          .ok (some
                            { assistant_role := assistant_role
                              user_role := user_role
                              original_task := original_task
                              specified_task := specified_task
                              messages := collectMessages raw_chat })

/-- The `AutoZip` archive reader (source lines 23-44). An archive on disk is
modelled as the list of its entries (file name and decoded content) in
listing order; `fl` is the filtered entry list computed by `__init__`. -/
structure AutoZip (α : Type) where
  zip_path : PyStr
  fl : List (PyStr × α)

/-- `AutoZip.__init__`: keep the entries whose names end with `ext`. -/
def AutoZip.init {α : Type} (zip_path : PyStr) (entries : List (PyStr × α))
    (ext : PyStr) : AutoZip α :=
  { zip_path := zip_path
    fl := entries.filter (fun f => listEndsWith f.1 ext) }

/-- `AutoZip.__len__`: the length of the filtered entry list, available
without touching the iteration cursor. -/
def AutoZip.len {α : Type} (z : AutoZip α) : Nat :=
  z.fl.length

/-- `AutoZip.__next__` at cursor `index`: `none` models `StopIteration`
(raised exactly when `index ≥ len(fl)`), otherwise the entry's decoded
content together with the advanced cursor. -/
def AutoZip.next {α : Type} (z : AutoZip α) (index : Nat) : Option (α × Nat) :=
  match z.fl[index]? with
  | some finfo => some (finfo.2, index + 1)
  | none => none

/-- Run the iteration protocol from cursor `index` with the given fuel,
collecting the yielded values. -/
def AutoZip.iterFrom {α : Type} (z : AutoZip α) : Nat → Nat → List α
  | 0, _ => []
  | fuel + 1, index =>
    match z.next index with
    | none => []
    | some (v, index') => v :: z.iterFrom fuel index'

/-- `iter(z)` followed by exhausting `next`: `__iter__` resets the cursor to 0
and `z.len` steps always suffice to exhaust the sequence. -/
def AutoZip.toList {α : Type} (z : AutoZip α) : List α :=
  z.iterFrom z.len 0

/-- The fields a record keeps inside the matrix: everything except
`assistant_role`, `user_role` and `original_task` (source lines 136-140). -/
structure MatrixItem where
  specified_task : Json
  messages : PyDict Nat Json

/-- The per-archive result of `load_zip` (source lines 146-150). -/
structure AllChats where
  assistant_roles : List PyStr
  user_roles : List PyStr
  matrix : PyDict (PyStr × PyStr) (PyDict Json MatrixItem)

/-- `list(sorted(set(l)))`: the distinct elements of `l` in ascending
lexicographic order (source lines 125-131). -/
def sortedRoles (l : List PyStr) : List PyStr :=
  List.insertionSort (fun a b => lexLe a b) l.dedup

/-- The matrix loop of `load_zip` (source lines 132-144): for each parsed
record in order, set the entry of its role pair's sub-dict at its
`original_task` key, creating the sub-dict when the role pair is new. -/
def buildMatrix (parsed_list : List ParsedChat) : PyDict (PyStr × PyStr) (PyDict Json MatrixItem) :=
  parsed_list.foldl
    (fun matrix parsed =>
      let key := (parsed.assistant_role, parsed.user_role)
      let new_item : MatrixItem :=
        { specified_task := parsed.specified_task, messages := parsed.messages }
      match pyDictGet? matrix key with
      | some sub => pyDictSet matrix key (pyDictSet sub parsed.original_task new_item)
      | none => pyDictSet matrix key [(parsed.original_task, new_item)])
    []

/-- The aggregation stage of `load_zip` (source lines 125-150), applied to the
list of successfully parsed records. -/
def assemble (parsed_list : List ParsedChat) : AllChats :=
  { assistant_roles := sortedRoles (parsed_list.map (·.assistant_role))
    user_roles := sortedRoles (parsed_list.map (·.user_role))
    matrix := buildMatrix parsed_list }

/-- The parsing loop of `load_zip` (source lines 118-123): parse each raw
record in order, skip rejected ones, keep the rest in order; an exception
raised by `parse` propagates. -/
def parseAll : List RawChat → Except PyErr (List ParsedChat)
  | [] => .ok []
  | raw :: rest =>
    match parse raw with
    | .error e => .error e
    | .ok none => parseAll rest
    | .ok (some parsed) =>
      match parseAll rest with
      | .error e => .error e
      | .ok parsed_rest => .ok (parsed :: parsed_rest)

/-- `load_zip` (source lines 106-150). The archive's contents at `zip_path`
are passed explicitly as the entry list `entries`; each matching entry's
decoded JSON object feeds `parse` and the surviving records are assembled. -/
def load_zip (zip_path : PyStr) (entries : List (PyStr × RawChat)) :
    Except PyErr AllChats :=
  match parseAll (AutoZip.init zip_path entries ".json".data).toList with
  | .error e => .error e
  | .ok parsed_list => .ok (assemble parsed_list)

/-- `os.path.basename`: the part of the path after the last separator. -/
def basenameOf (p : PyStr) : PyStr :=
  (p.reverse.takeWhile (fun c => ¬ (c = '/'))).reverse

/-- The root part of `os.path.splitext`: strip the extension starting at the
last dot - unless every character before that dot is itself a dot, in which
case the name is kept whole. -/
def stemOf (s : PyStr) : PyStr :=
  let r := s.reverse
  let after := r.takeWhile (fun c => ¬ (c = '.'))
  if after.length = r.length then s
  else
    let before := r.drop (after.length + 1)
    if before.all (fun c => c = '.') then s else before.reverse

/-- Worker for `load_datasets`: process the matched archive files in order,
inserting each archive's result under its base name with the extension
stripped. -/
def loadDatasetsGo : List (PyStr × List (PyStr × RawChat)) →
    PyDict PyStr AllChats → Except PyErr (PyDict PyStr AllChats)
  | [], datasets => .ok datasets
  | (file_name, contents) :: rest, datasets =>
    match load_zip file_name contents with
    | .error e => .error e
    | .ok result =>
      loadDatasetsGo rest (pyDictSet datasets (stemOf (basenameOf file_name)) result)

/-- `load_datasets` (source lines 153-172). The `glob("*.zip")` result is
passed explicitly as `files`, each file name paired with the archive's
entries; a missing or empty directory is the empty `files` list. -/
def load_datasets (files : List (PyStr × List (PyStr × RawChat))) :
    Except PyErr (PyDict PyStr AllChats) :=
  loadDatasetsGo files []

/-! ### Supporting lemmas -/

theorem pySplitGo_ne_nil (sep : PyStr) :
    ∀ (fuel : Nat) (acc s : PyStr), pySplitGo sep fuel acc s ≠ []
  | 0, _, _ => by simp [pySplitGo]
  | fuel + 1, acc, [] => by simp [pySplitGo]
  | fuel + 1, acc, c :: cs => by
    unfold pySplitGo
    match stripPrefixChars sep (c :: cs) with
    | some rest => simp
    | none => exact pySplitGo_ne_nil sep fuel (c :: acc) cs

/-- Python `str.split` always returns at least one chunk. -/
theorem pySplit_length_pos (s sep : PyStr) : 1 ≤ (pySplit s sep).length := by
  have h := pySplitGo_ne_nil sep s.length [] s
  cases hev : pySplitGo sep s.length [] s with
  | nil => exact absurd hev h
  | cons a l => simp [pySplit, hev]

theorem pySplitJson_ok_length_pos {v : Json} {sep : PyStr} {l : List PyStr}
    (h : pySplitJson v sep = .ok l) : 1 ≤ l.length := by
  cases v <;> simp [pySplitJson] at h
  exact h ▸ pySplit_length_pos _ _

/-- C10: the rejection branches guarded by `len(assistant_role) < 1` and
`len(user_role) < 1` after splitting on the delimiter marker are unreachable
for every input: `str.split` always returns a list of length at least 1, so
`parse` computes the same result as the variant with those two checks
removed, and in particular never rejects at those two checks. -/
theorem parse_len_checks_unreachable (raw : RawChat) :
    parse raw = parseNoLenChecks raw := by
  unfold parse parseNoLenChecks
  by_cases hc : (pyDictContains raw "role_1".data : Prop)
  case neg => simp [hc]
  cases h1 : dictGetItem raw "role_1".data with
  | error e => simp [hc, h1]
  | ok role_1 =>
  cases h2 : pyInOp "_RoleType.ASSISTANT".data role_1 with
  | error e => simp [hc, h1, h2]
  | ok b =>
  cases b with
  | false => simp [hc, h1, h2]
  | true =>
  cases h3 : pySplitJson role_1 "_RoleType.ASSISTANT".data with
  | error e => simp [hc, h1, h2, h3]
  | ok assistant_role_chunks =>
  have hlen1 := pySplitJson_ok_length_pos h3
  simp only [hc, not_true_eq_false, if_false, h1, h2, h3,
    if_neg (Nat.not_lt.mpr hlen1)]
  cases h4 : pyIndex assistant_role_chunks 0 with
  | error e => simp [h4]
  | ok assistant_role =>
  simp only [h4]
  by_cases hg1 : assistant_role.length ≤ 0
  case pos => simp [hg1]
  simp only [if_neg hg1]
  cases h5 : dictGetItem raw "role_2".data with
  | error e => simp [h5]
  | ok role_2 =>
  simp only [h5]
  cases h6 : pyInOp "_RoleType.USER".data role_2 with
  | error e => simp [h6]
  | ok b2 =>
  cases b2 with
  | false => simp [h6]
  | true =>
  cases h7 : pySplitJson role_2 "_RoleType.USER".data with
  | error e => simp [h6, h7]
  | ok user_role_chunks =>
  have hlen2 := pySplitJson_ok_length_pos h7
  simp only [h6, h7, if_neg (Nat.not_lt.mpr hlen2)]

/-- C1: the validation contract "missing `role_1` or `role_2`, missing
delimiter marker, empty prefix, or missing/empty `original_task` or
`specified_task` all yield the rejection sentinel and no exception" is
violated by the code: on a record whose `role_1` is valid but whose `role_2`
field is missing, `parse` raises `KeyError('role_2')` (source line 72 indexes
`raw_chat["role_2"]` without a membership check) instead of returning the
rejection sentinel. -/
theorem parse_missing_role2_keyError :
    parse [("role_1".data, .str "a_RoleType.ASSISTANT".data)]
      = .error (.keyError "role_2".data) := by rfl

/-- C2: on an archive whose single JSON entry lacks `original_task` (with the
other required fields valid), `load_zip` does not return the empty result the
spec expects: the `raw_chat["original_task"]` access at source line 82 raises
`KeyError('original_task')`, which propagates out of `load_zip` and aborts
the whole load. -/
theorem load_zip_missing_original_task_keyError :
    load_zip "dataset.zip".data
      [("chat.json".data,
        [("role_1".data, .str "a_RoleType.ASSISTANT".data),
         ("role_2".data, .str "b_RoleType.USER".data),
         ("specified_task".data, .str "s".data)])]
      = .error (.keyError "original_task".data) := by rfl

/-- C7: parsing is deterministic and stateless. `parse` is embedded as a pure
function of the raw record alone - there is no hidden state it could read or
write - so two calls on the same raw record are definitionally the same
computation and yield identical results. -/
theorem parse_deterministic (raw : RawChat) : parse raw = parse raw := rfl

/-- C8: running the directory scan on a missing or empty directory - the
`*.zip` glob matches zero files, so the scan's work list is empty - returns
the empty dataset collection and raises no error. -/
theorem load_datasets_empty : load_datasets [] = .ok [] := rfl

/-- Inversion of an accepted `parse` run: the checks that guarded the
accepting branch, and the shape of the returned record. -/
theorem parse_ok_elim {raw : RawChat} {p : ParsedChat}
    (h : parse raw = .ok (some p)) :
    p.assistant_role ≠ [] ∧ p.user_role ≠ [] ∧
    (∃ n, pyLen p.original_task = .ok n ∧ 0 < n) ∧
    (∃ n, pyLen p.specified_task = .ok n ∧ 0 < n) ∧
    p.messages = collectMessages raw := by
  unfold parse at h
  by_cases hc : (pyDictContains raw "role_1".data : Prop)
  case neg => simp [hc] at h
  simp only [hc, not_true_eq_false, if_false] at h
  cases h1 : dictGetItem raw "role_1".data with
  | error e => simp [h1] at h
  | ok role_1 =>
  simp only [h1] at h
  cases h2 : pyInOp "_RoleType.ASSISTANT".data role_1 with
  | error e => simp [h2] at h
  | ok b =>
  cases b with
  | false => simp [h2] at h
  | true =>
  simp only [h2] at h
  cases h3 : pySplitJson role_1 "_RoleType.ASSISTANT".data with
  | error e => simp [h3] at h
  | ok assistant_role_chunks =>
  simp only [h3] at h
  by_cases hl1 : assistant_role_chunks.length < 1
  case pos => simp [hl1] at h
  simp only [if_neg hl1] at h
  cases h4 : pyIndex assistant_role_chunks 0 with
  | error e => simp [h4] at h
  | ok assistant_role =>
  simp only [h4] at h
  by_cases hg1 : assistant_role.length ≤ 0
  case pos => simp [hg1] at h
  simp only [if_neg hg1] at h
  cases h5 : dictGetItem raw "role_2".data with
  | error e => simp [h5] at h
  | ok role_2 =>
  simp only [h5] at h
  cases h6 : pyInOp "_RoleType.USER".data role_2 with
  | error e => simp [h6] at h
  | ok b2 =>
  cases b2 with
  | false => simp [h6] at h
  | true =>
  simp only [h6] at h
  cases h7 : pySplitJson role_2 "_RoleType.USER".data with
  | error e => simp [h7] at h
  | ok user_role_chunks =>
  simp only [h7] at h
  by_cases hl2 : user_role_chunks.length < 1
  case pos => simp [hl2] at h
  simp only [if_neg hl2] at h
  cases h8 : pyIndex user_role_chunks 0 with
  | error e => simp [h8] at h
  | ok user_role =>
  simp only [h8] at h
  by_cases hg2 : user_role.length ≤ 0
  case pos => simp [hg2] at h
  simp only [if_neg hg2] at h
  cases h9 : dictGetItem raw "original_task".data with
  | error e => simp [h9] at h
  | ok original_task =>
  simp only [h9] at h
  cases h10 : pyLen original_task with
  | error e => simp [h10] at h
  | ok otLen =>
  simp only [h10] at h
  by_cases hg3 : otLen ≤ 0
  case pos => simp [hg3] at h
  simp only [if_neg hg3] at h
  cases h11 : dictGetItem raw "specified_task".data with
  | error e => simp [h11] at h
  | ok specified_task =>
  simp only [h11] at h
  cases h12 : pyLen specified_task with
  | error e => simp [h12] at h
  | ok stLen =>
  simp only [h12] at h
  by_cases hg4 : stLen ≤ 0
  case pos => simp [hg4] at h
  simp only [if_neg hg4, Except.ok.injEq, Option.some.injEq] at h
  subst h
  refine ⟨?_, ?_, ⟨otLen, h10, ?_⟩, ⟨stLen, h12, ?_⟩, rfl⟩
  · show assistant_role ≠ []
    exact List.length_pos.mp (by omega)
  · show user_role ≠ []
    exact List.length_pos.mp (by omega)
  · omega
  · omega

/-- A raw record whose `original_task` is a non-empty JSON array rather than
a string; every check of `parse` passes on it. -/
def nonstringTaskRaw : RawChat :=
  [("role_1".data, .str "a_RoleType.ASSISTANT".data),
   ("role_2".data, .str "b_RoleType.USER".data),
   ("original_task".data, .arr (JsonList.ofList [.null])),
   ("specified_task".data, .str "s".data)]

/-- C3 counterexample: `parse` accepts a record whose `original_task` is a
non-empty JSON array - the produced normalized record's `original_task` is
not a string, because source line 83 only checks `len(original_task) <= 0`
and `len` is defined on arrays. -/
theorem parse_accepts_nonstring_original_task :
    ∃ p, parse nonstringTaskRaw = .ok (some p) ∧ ∀ s, p.original_task ≠ Json.str s := by
  refine ⟨{ assistant_role := "a".data, user_role := "b".data,
            original_task := .arr (JsonList.ofList [.null]),
            specified_task := .str "s".data, messages := [] }, by rfl, ?_⟩
  intro s h
  exact absurd h (by simp)

/-- C3 (amended): whenever `parse` returns a normalized record, its
`assistant_role` and `user_role` are non-empty strings, and its
`original_task` and `specified_task` are non-empty values (their Python
length is defined and positive - so in particular non-empty whenever they
are strings); a normalized record is never produced if any required field is
missing or empty. -/
theorem parse_ok_fields_nonempty {raw : RawChat} {p : ParsedChat}
    (h : parse raw = .ok (some p)) :
    p.assistant_role ≠ [] ∧ p.user_role ≠ [] ∧
    (∃ n, pyLen p.original_task = .ok n ∧ 0 < n) ∧
    (∃ n, pyLen p.specified_task = .ok n ∧ 0 < n) := by
  obtain ⟨h1, h2, h3, h4, -⟩ := parse_ok_elim h
  exact ⟨h1, h2, h3, h4⟩

/-- A fully valid raw record (the spec's end-to-end example entry A). -/
def validRawA : RawChat :=
  [("role_1".data, .str "X_RoleType.ASSISTANT".data),
   ("role_2".data, .str "Y_RoleType.USER".data),
   ("original_task".data, .str "T1".data),
   ("specified_task".data, .str "S1".data),
   ("message_0".data, .str "hi".data)]

/-- The normalized record `parse` produces for `validRawA`. -/
def parsedValidA : ParsedChat :=
  { assistant_role := "X".data
    user_role := "Y".data
    original_task := .str "T1".data
    specified_task := .str "S1".data
    messages := [(0, .str "hi".data)] }

theorem parse_ok_fields_nonempty_witness :
    parsedValidA.assistant_role ≠ [] ∧ parsedValidA.user_role ≠ [] ∧
    (∃ n, pyLen parsedValidA.original_task = .ok n ∧ 0 < n) ∧
    (∃ n, pyLen parsedValidA.specified_task = .ok n ∧ 0 < n) :=
  parse_ok_fields_nonempty (by rfl : parse validRawA = .ok (some parsedValidA))

/-- Lookup after a Python dict assignment: the assigned key reads back the
new value, every other key is unchanged. -/
theorem pyDictGet?_set {κ β : Type} [DecidableEq κ] (d : PyDict κ β) (k : κ) (v : β) (k' : κ) :
    pyDictGet? (pyDictSet d k v) k' = if k = k' then some v else pyDictGet? d k' := by
  induction d with
  | nil => simp [pyDictSet, pyDictGet?]
  | cons kv rest ih =>
    obtain ⟨a, b⟩ := kv
    simp only [pyDictSet]
    by_cases hak : a = k
    · subst hak
      simp only [if_pos rfl, pyDictGet?]
      by_cases h2 : a = k' <;> simp [h2]
    · simp only [if_neg hak, pyDictGet?]
      by_cases h2 : a = k'
      · subst h2
        rw [if_pos rfl, if_neg (fun hkk => hak hkk.symm), if_pos rfl]
      · simp [h2, ih]

/-- The value of the last field of `raw` whose name contains a
`message_<integer>` match parsing to `n`, if any. -/
def lastMsgField : RawChat → Nat → Option Json
  | [], _ => none
  | kv :: rest, n =>
    match lastMsgField rest n with
    | some v => some v
    | none => if msgSearch kv.1 = some n then some kv.2 else none

theorem collectMessages_go (raw : RawChat) :
    ∀ (d : PyDict Nat Json) (n : Nat),
      pyDictGet?
        (raw.foldl
          (fun messages kv =>
            match msgSearch kv.1 with
            | some number => pyDictSet messages number kv.2
            | none => messages)
          d) n
      = match lastMsgField raw n with
        | some v => some v
        | none => pyDictGet? d n := by
  induction raw with
  | nil => simp [lastMsgField]
  | cons kv rest ih =>
    intro d n
    simp only [List.foldl_cons, lastMsgField]
    cases hm : msgSearch kv.1 with
    | none =>
      rw [ih]
      cases lastMsgField rest n <;> simp [hm]
    | some m =>
      rw [ih]
      cases lastMsgField rest n with
      | some v => simp
      | none =>
        simp only [hm, pyDictGet?_set]
        by_cases hmn : m = n
        · subst hmn
          simp
        · simp [hmn]

/-- A `messages` lookup returns exactly the last contributing field's value. -/
theorem collectMessages_lookup (raw : RawChat) (n : Nat) :
    pyDictGet? (collectMessages raw) n = lastMsgField raw n := by
  unfold collectMessages
  rw [collectMessages_go]
  cases lastMsgField raw n <;> simp [pyDictGet?]

/-- When no two distinct field names of `raw` parse to the same message
number, `lastMsgField` is characterized by plain membership. -/
theorem lastMsgField_eq_some_iff (raw : RawChat)
    (hnodup : (raw.map Prod.fst).Nodup)
    (hinj : ∀ kv1 ∈ raw, ∀ kv2 ∈ raw,
      msgSearch kv1.1 = msgSearch kv2.1 → (msgSearch kv1.1).isSome → kv1.1 = kv2.1)
    (n : Nat) (v : Json) :
    lastMsgField raw n = some v ↔ ∃ kv ∈ raw, msgSearch kv.1 = some n ∧ kv.2 = v := by
  revert n v
  induction raw with
  | nil => intro n v; simp [lastMsgField]
  | cons kv rest ih =>
    intro n v
    have hnodup' : (rest.map Prod.fst).Nodup := (List.nodup_cons.mp (by simpa using hnodup)).2
    have hhead : kv.1 ∉ rest.map Prod.fst := (List.nodup_cons.mp (by simpa using hnodup)).1
    have hinj' : ∀ kv1 ∈ rest, ∀ kv2 ∈ rest,
        msgSearch kv1.1 = msgSearch kv2.1 → (msgSearch kv1.1).isSome → kv1.1 = kv2.1 :=
      fun kv1 h1 kv2 h2 =>
        hinj kv1 (List.mem_cons_of_mem _ h1) kv2 (List.mem_cons_of_mem _ h2)
    constructor
    · intro h
      simp only [lastMsgField] at h
      cases hrest : lastMsgField rest n with
      | some w =>
        rw [hrest] at h
        obtain rfl : w = v := by simpa using h
        obtain ⟨kv2, hmem, hms, hval⟩ := (ih hnodup' hinj' n w).mp hrest
        exact ⟨kv2, List.mem_cons_of_mem _ hmem, hms, hval⟩
      | none =>
        rw [hrest] at h
        by_cases hm : msgSearch kv.1 = some n
        · rw [if_pos hm] at h
          obtain rfl : kv.2 = v := by simpa using h
          exact ⟨kv, List.mem_cons_self _ _, hm, rfl⟩
        · rw [if_neg hm] at h
          exact absurd h (by simp)
    · rintro ⟨kv2, hmem, hms, rfl⟩
      simp only [lastMsgField]
      rcases List.mem_cons.mp hmem with rfl | hmem'
      · cases hrest : lastMsgField rest n with
        | some w =>
          obtain ⟨kv3, hmem3, hms3, -⟩ := (ih hnodup' hinj' n w).mp hrest
          have hkeys : kv3.1 = kv2.1 :=
            hinj kv3 (List.mem_cons_of_mem _ hmem3) kv2 (List.mem_cons_self _ _)
              (by rw [hms3, hms]) (by simp [hms3])
          exact absurd (hkeys ▸ List.mem_map_of_mem Prod.fst hmem3) hhead
        | none => simp [hms]
      · have hr := (ih hnodup' hinj' n kv2.2).mpr ⟨kv2, hmem', hms, rfl⟩
        simp [hr]

/-- C4: for every raw record accepted by `parse` whose field names are
distinct (a Python dict) and in which no two distinct field names parse to
the same message number, the normalized record's `messages` mapping contains
exactly the integer keys parsed from field names containing a
`message_<integer>` match, each mapped to the corresponding original field
value; the characterization mentions no field order, so any order of
appearance of the fields yields the same mapping, and fields matching
neither the required-field names nor the message pattern never reach
`messages`. -/
theorem parse_messages_exactly_pattern_fields {raw : RawChat} {p : ParsedChat}
    (h : parse raw = .ok (some p))
    (hnodup : (raw.map Prod.fst).Nodup)
    (hinj : ∀ kv1 ∈ raw, ∀ kv2 ∈ raw,
      msgSearch kv1.1 = msgSearch kv2.1 → (msgSearch kv1.1).isSome → kv1.1 = kv2.1)
    (n : Nat) (v : Json) :
    pyDictGet? p.messages n = some v ↔ ∃ kv ∈ raw, msgSearch kv.1 = some n ∧ kv.2 = v := by
  obtain ⟨-, -, -, -, hmsg⟩ := parse_ok_elim h
  rw [hmsg, collectMessages_lookup]
  exact lastMsgField_eq_some_iff raw hnodup hinj n v

/-- The spec's `message_0`/`message_1`/`message_7` example record, with the
`message_7` field listed first. -/
def messagesRawExample : RawChat :=
  [("message_7".data, .str "m7".data),
   ("role_1".data, .str "X_RoleType.ASSISTANT".data),
   ("role_2".data, .str "Y_RoleType.USER".data),
   ("original_task".data, .str "T1".data),
   ("specified_task".data, .str "S1".data),
   ("message_0".data, .str "hi".data),
   ("message_1".data, .str "m1".data)]

/-- The normalized record `parse` produces for `messagesRawExample`. -/
def messagesParsedExample : ParsedChat :=
  { assistant_role := "X".data
    user_role := "Y".data
    original_task := .str "T1".data
    specified_task := .str "S1".data
    messages := [(7, .str "m7".data), (0, .str "hi".data), (1, .str "m1".data)] }

theorem parse_messages_exactly_pattern_fields_witness :
    pyDictGet? messagesParsedExample.messages 7 = some (.str "m7".data) ↔
      ∃ kv ∈ messagesRawExample, msgSearch kv.1 = some 7 ∧ kv.2 = .str "m7".data :=
  parse_messages_exactly_pattern_fields
    (by rfl : parse messagesRawExample = .ok (some messagesParsedExample))
    (by decide) (by decide) 7 (.str "m7".data)

/-- C5: for two normalized records sharing the same
`(assistant_role, user_role, original_task)` triple but differing in
`specified_task`, the assembler's matrix sub-dict for that role pair maps the
shared task key to the record processed last (last-write-wins, no error),
and `assistant_roles` and `user_roles` each contain exactly one entry for
that pair. -/
theorem assemble_last_write_wins (p1 p2 : ParsedChat)
    (har : p1.assistant_role = p2.assistant_role)
    (hur : p1.user_role = p2.user_role)
    (hot : p1.original_task = p2.original_task)
    (hst : p1.specified_task ≠ p2.specified_task) :
    (assemble [p1, p2]).assistant_roles = [p2.assistant_role] ∧
    (assemble [p1, p2]).user_roles = [p2.user_role] ∧
    pyDictGet? (assemble [p1, p2]).matrix (p2.assistant_role, p2.user_role)
      = some [(p2.original_task,
               { specified_task := p2.specified_task, messages := p2.messages })] := by
  obtain ⟨ar1, ur1, ot1, st1, ms1⟩ := p1
  obtain ⟨ar2, ur2, ot2, st2, ms2⟩ := p2
  simp only at har hur hot hst
  subst har
  subst hur
  subst hot
  refine ⟨?_, ?_, ?_⟩
  · simp [assemble, sortedRoles, List.dedup_cons_of_mem, List.insertionSort,
      List.orderedInsert]
  · simp [assemble, sortedRoles, List.dedup_cons_of_mem, List.insertionSort,
      List.orderedInsert]
  · simp [assemble, buildMatrix, pyDictGet?, pyDictSet]

/-- The spec's end-to-end entry A, already normalized. -/
def specParsedA : ParsedChat :=
  { assistant_role := "X".data
    user_role := "Y".data
    original_task := .str "T1".data
    specified_task := .str "S1".data
    messages := [(0, .str "hi".data)] }

/-- The spec's end-to-end entry B: identical to entry A except for
`specified_task`. -/
def specParsedB : ParsedChat :=
  { assistant_role := "X".data
    user_role := "Y".data
    original_task := .str "T1".data
    specified_task := .str "S2".data
    messages := [(0, .str "hi".data)] }

theorem assemble_last_write_wins_witness :
    (assemble [specParsedA, specParsedB]).assistant_roles = [specParsedB.assistant_role] ∧
    (assemble [specParsedA, specParsedB]).user_roles = [specParsedB.user_role] ∧
    pyDictGet? (assemble [specParsedA, specParsedB]).matrix
        (specParsedB.assistant_role, specParsedB.user_role)
      = some [(specParsedB.original_task,
               { specified_task := specParsedB.specified_task,
                 messages := specParsedB.messages })] :=
  assemble_last_write_wins specParsedA specParsedB rfl rfl rfl (by decide)

theorem lexLe_cons_iff (a b : Char) (as bs : PyStr) :
    lexLe (a :: as) (b :: bs) = true ↔ a < b ∨ (a = b ∧ lexLe as bs = true) := by
  simp only [lexLe]
  rcases lt_trichotomy a b with h | h | h
  · simp [h]
  · subst h
    simp [lt_irrefl]
  · rw [if_neg (asymm h), if_pos h]
    simp [asymm h, h.ne']

theorem lexLt_cons_iff (a b : Char) (as bs : PyStr) :
    lexLt (a :: as) (b :: bs) = true ↔ a < b ∨ (a = b ∧ lexLt as bs = true) := by
  simp only [lexLt]
  rcases lt_trichotomy a b with h | h | h
  · simp [h]
  · subst h
    simp [lt_irrefl]
  · rw [if_neg (asymm h), if_pos h]
    simp [asymm h, h.ne']

theorem lexLe_total : ∀ a b : PyStr, lexLe a b = true ∨ lexLe b a = true
  | [], b => Or.inl (by cases b <;> simp [lexLe])
  | a :: as, [] => Or.inr (by simp [lexLe])
  | a :: as, b :: bs => by
    rcases lt_trichotomy a b with h | h | h
    · exact Or.inl ((lexLe_cons_iff a b as bs).mpr (Or.inl h))
    · subst h
      rcases lexLe_total as bs with h' | h'
      · exact Or.inl ((lexLe_cons_iff a a as bs).mpr (Or.inr ⟨rfl, h'⟩))
      · exact Or.inr ((lexLe_cons_iff a a bs as).mpr (Or.inr ⟨rfl, h'⟩))
    · exact Or.inr ((lexLe_cons_iff b a bs as).mpr (Or.inl h))

theorem lexLe_trans : ∀ a b c : PyStr,
    lexLe a b = true → lexLe b c = true → lexLe a c = true
  | [], _, c, _, _ => by cases c <;> simp [lexLe]
  | a :: as, [], _, h1, _ => by simp [lexLe] at h1
  | a :: as, b :: bs, [], _, h2 => by simp [lexLe] at h2
  | a :: as, b :: bs, c :: cs, h1, h2 => by
    rcases (lexLe_cons_iff a b as bs).mp h1 with hab | ⟨heq, hab⟩
    · rcases (lexLe_cons_iff b c bs cs).mp h2 with hbc | ⟨hbc, hbc'⟩
      · exact (lexLe_cons_iff a c as cs).mpr (Or.inl (lt_trans hab hbc))
      · exact (lexLe_cons_iff a c as cs).mpr (Or.inl (hbc ▸ hab))
    · subst heq
      rcases (lexLe_cons_iff a c bs cs).mp h2 with hbc | ⟨hbc, hbc'⟩
      · exact (lexLe_cons_iff a c as cs).mpr (Or.inl hbc)
      · exact (lexLe_cons_iff a c as cs).mpr
          (Or.inr ⟨hbc, lexLe_trans as bs cs hab hbc'⟩)

theorem lexLt_of_lexLe_of_ne : ∀ a b : PyStr,
    lexLe a b = true → a ≠ b → lexLt a b = true
  | [], [], _, hne => absurd rfl hne
  | [], b :: bs, _, _ => by simp [lexLt]
  | a :: as, [], h, _ => by simp [lexLe] at h
  | a :: as, b :: bs, h, hne => by
    rcases (lexLe_cons_iff a b as bs).mp h with hab | ⟨rfl, hab⟩
    · exact (lexLt_cons_iff a b as bs).mpr (Or.inl hab)
    · have hne' : as ≠ bs := fun he => hne (by rw [he])
      exact (lexLt_cons_iff a a as bs).mpr
        (Or.inr ⟨rfl, lexLt_of_lexLe_of_ne as bs hab hne'⟩)

instance : IsTotal PyStr (fun a b => lexLe a b = true) := ⟨lexLe_total⟩

instance : IsTrans PyStr (fun a b => lexLe a b = true) := ⟨lexLe_trans⟩

theorem sortedRoles_sorted (l : List PyStr) :
    (sortedRoles l).Sorted (fun a b => lexLe a b = true) :=
  List.sorted_insertionSort _ _

theorem sortedRoles_nodup (l : List PyStr) : (sortedRoles l).Nodup :=
  ((List.perm_insertionSort _ _).nodup_iff).mpr (List.nodup_dedup l)

theorem sortedRoles_mem (l : List PyStr) (a : PyStr) :
    a ∈ sortedRoles l ↔ a ∈ l := by
  rw [sortedRoles, (List.perm_insertionSort _ _).mem_iff, List.mem_dedup]

theorem sortedRoles_sorted_lt (l : List PyStr) :
    (sortedRoles l).Sorted (fun a b => lexLt a b = true) :=
  ((sortedRoles_sorted l).and (sortedRoles_nodup l)).imp
    (fun h => lexLt_of_lexLe_of_ne _ _ h.1 h.2)

/-- Inversion of a successful `load_zip` run: the parsed record list and the
fact that the result is its assembly. -/
theorem load_zip_ok_elim {zip_path : PyStr} {entries : List (PyStr × RawChat)}
    {r : AllChats} (h : load_zip zip_path entries = .ok r) :
    ∃ ps, parseAll (AutoZip.init zip_path entries ".json".data).toList = .ok ps ∧
      r = assemble ps := by
  unfold load_zip at h
  cases hp : parseAll (AutoZip.init zip_path entries ".json".data).toList with
  | error e =>
    simp only [hp] at h
    exact absurd h (by simp)
  | ok ps =>
    simp only [hp] at h
    exact ⟨ps, rfl, by simpa using h.symm⟩

/-- C6: for every archive whose load succeeds, `assistant_roles` and
`user_roles` in the archive result are strictly sorted lexicographically
with no duplicates, and contain exactly the distinct assistant-role and
user-role strings of the archive's normalized records. -/
theorem load_zip_roles_sorted_distinct {zip_path : PyStr}
    {entries : List (PyStr × RawChat)} {r : AllChats}
    (h : load_zip zip_path entries = .ok r) :
    ∃ ps, parseAll (AutoZip.init zip_path entries ".json".data).toList = .ok ps ∧
      r.assistant_roles.Sorted (fun a b => lexLt a b = true) ∧
      r.assistant_roles.Nodup ∧
      (∀ a, a ∈ r.assistant_roles ↔ a ∈ ps.map (·.assistant_role)) ∧
      r.user_roles.Sorted (fun a b => lexLt a b = true) ∧
      r.user_roles.Nodup ∧
      (∀ a, a ∈ r.user_roles ↔ a ∈ ps.map (·.user_role)) := by
  obtain ⟨ps, hps, rfl⟩ := load_zip_ok_elim h
  exact ⟨ps, hps,
    sortedRoles_sorted_lt _, sortedRoles_nodup _, fun a => sortedRoles_mem _ a,
    sortedRoles_sorted_lt _, sortedRoles_nodup _, fun a => sortedRoles_mem _ a⟩

/-- A two-entry archive whose roles arrive in reverse lexicographic order. -/
def twoEntryArchive : List (PyStr × RawChat) :=
  [("a.json".data,
    [("role_1".data, .str "B_RoleType.ASSISTANT".data),
     ("role_2".data, .str "D_RoleType.USER".data),
     ("original_task".data, .str "T1".data),
     ("specified_task".data, .str "S1".data)]),
   ("b.json".data,
    [("role_1".data, .str "A_RoleType.ASSISTANT".data),
     ("role_2".data, .str "C_RoleType.USER".data),
     ("original_task".data, .str "T2".data),
     ("specified_task".data, .str "S2".data)])]

/-- The archive result `load_zip` produces for `twoEntryArchive`. -/
def twoEntryResult : AllChats :=
  { assistant_roles := ["A".data, "B".data]
    user_roles := ["C".data, "D".data]
    matrix :=
      [(("B".data, "D".data),
        [(.str "T1".data, { specified_task := .str "S1".data, messages := [] })]),
       (("A".data, "C".data),
        [(.str "T2".data, { specified_task := .str "S2".data, messages := [] })])] }

theorem load_zip_roles_sorted_distinct_witness :
    ∃ ps, parseAll (AutoZip.init "d.zip".data twoEntryArchive ".json".data).toList
            = .ok ps ∧
      twoEntryResult.assistant_roles.Sorted (fun a b => lexLt a b = true) ∧
      twoEntryResult.assistant_roles.Nodup ∧
      (∀ a, a ∈ twoEntryResult.assistant_roles ↔ a ∈ ps.map (·.assistant_role)) ∧
      twoEntryResult.user_roles.Sorted (fun a b => lexLt a b = true) ∧
      twoEntryResult.user_roles.Nodup ∧
      (∀ a, a ∈ twoEntryResult.user_roles ↔ a ∈ ps.map (·.user_role)) :=
  load_zip_roles_sorted_distinct
    (by rfl : load_zip "d.zip".data twoEntryArchive = .ok twoEntryResult)

theorem AutoZip.iterFrom_eq {α : Type} (z : AutoZip α) :
    ∀ (fuel index : Nat), z.fl.length ≤ index + fuel →
      z.iterFrom fuel index = (z.fl.drop index).map Prod.snd := by
  intro fuel
  induction fuel with
  | zero =>
    intro index h
    rw [AutoZip.iterFrom, List.drop_eq_nil_of_le (by omega)]
    simp
  | succ fuel ih =>
    intro index h
    rw [AutoZip.iterFrom]
    unfold AutoZip.next
    cases hx : z.fl[index]? with
    | none =>
      have hge : z.fl.length ≤ index := by
        by_contra hlt
        push_neg at hlt
        rw [List.getElem?_eq_getElem hlt] at hx
        cases hx
      rw [List.drop_eq_nil_of_le hge]
      simp
    | some finfo =>
      have hlt : index < z.fl.length := by
        by_contra hge
        push_neg at hge
        rw [List.getElem?_eq_none hge] at hx
        cases hx
      have hfin : finfo = z.fl[index] := by
        rw [List.getElem?_eq_getElem hlt] at hx
        exact (Option.some.inj hx).symm
      rw [List.drop_eq_getElem_cons hlt]
      simp only [List.map_cons]
      rw [ih (index + 1) (by omega), hfin]

/-- C9: for every archive, the reader's reported length equals the number of
entries whose names end with the target extension - computed from the
filtered entry list alone, independent of any iteration cursor - and
iterating from a fresh `iter` yields exactly the decoded values of those
entries, one per entry, in archive listing order; in particular the number
of yielded values equals the reported length. -/
theorem autoZip_len_iteration {α : Type} (zip_path : PyStr)
    (entries : List (PyStr × α)) (ext : PyStr) :
    (AutoZip.init zip_path entries ext).len
        = (entries.filter (fun f => listEndsWith f.1 ext)).length ∧
    (AutoZip.init zip_path entries ext).toList
        = (entries.filter (fun f => listEndsWith f.1 ext)).map Prod.snd ∧
    (AutoZip.init zip_path entries ext).toList.length
        = (AutoZip.init zip_path entries ext).len := by
  have htl : (AutoZip.init zip_path entries ext).toList
      = (entries.filter (fun f => listEndsWith f.1 ext)).map Prod.snd := by
    rw [AutoZip.toList, AutoZip.iterFrom_eq _ _ 0 (by simp [AutoZip.len])]
    rfl
  refine ⟨rfl, htl, ?_⟩
  rw [htl]
  simp [AutoZip.len, AutoZip.init]
